import Mathlib

/-!
Verification of the batch word-classification pipeline in `src/process_words.py`.

The development shallowly embeds the pipeline's pure core:

* `parse_response`   — the reply parser (`parse_response` in the source),
* `retryCall`        — the tenacity retry policy wrapped around `process_batch`,
* `runStep`/`runMain`— the per-batch body and top-level loop of `main`,
* `aggregate_results`— the final aggregation pass.

Python string primitives (`str.strip`, `str.split`, slicing, `\d` digit tests)
are modelled by structurally recursive functions on `List Char`, so that every
definition evaluates inside the kernel.  Whitespace is ASCII whitespace and
`\d` is `0`-`9`; the inputs appearing in this development use no exotic
Unicode whitespace or digits, where Python's semantics would differ.
Disk writes and the model-client call are represented explicitly: writes as an
`Artifact` list, the (external, post-retry) model call as an oracle
`Nat → Except String String` giving, per batch offset, either the reply text or
the message of the exception that escaped `process_batch`.
-/

namespace ProcessWords

/-- Python `str.strip()` on a character list: drop leading and trailing
whitespace. -/
def pyStripList (l : List Char) : List Char :=
  ((l.dropWhile Char.isWhitespace).reverse.dropWhile Char.isWhitespace).reverse

/-- Python `str.strip()` (as used on `response_text` and each block). -/
def pyStrip (s : String) : String :=
  (pyStripList s.data).asString

/-- Python `text.split('\n\n')`: split on leftmost non-overlapping occurrences
of two consecutive newlines; separators are consumed; the result is never
empty (splitting the empty string gives `[[]]`). -/
def splitBlankList : List Char → List (List Char)
  | [] => [[]]
  | '\n' :: '\n' :: rest => [] :: splitBlankList rest
  | c :: rest =>
    match splitBlankList rest with
    | [] => [[c]]
    | h :: t => (c :: h) :: t

/-- Python `block.split('\n')`. -/
def splitLinesList : List Char → List (List Char)
  | [] => [[]]
  | '\n' :: rest => [] :: splitLinesList rest
  | c :: rest =>
    match splitLinesList rest with
    | [] => [[c]]
    | h :: t => (c :: h) :: t

/-- Python `block.split('\n')` on strings. -/
def splitLines (s : String) : List String :=
  (splitLinesList s.data).map List.asString

/-- Python `response_text[:200]`. -/
def pyTake (s : String) (n : Nat) : String :=
  (s.data.take n).asString

/-- One row of a per-batch result table: the dictionaries built by
`parse_response` and by `main`'s failure handler.  A field holds `none` when
the Python dict lacks the key (equivalently, when the value reads back from
CSV as missing). -/
structure Entry where
  word : String
  reason : Option String := none
  near_words : Option String := none
  category : Option String := none
  confidence : Option String := none
  is_boundary : Option String := none
  error : Option String := none
  raw_response : Option String := none
deriving DecidableEq, Repr

/-- The word attached to the record at block position `idx`:
`batch[idx] if idx < len(batch) else f"UNKNOWN_{idx}"`. -/
def wordAt (batch : List String) (idx : Nat) : String :=
  match batch[idx]? with
  | some w => w
  | none => "UNKNOWN_" ++ toString idx

/-- The compiled pattern `re.compile(r".+\n.+\n.+\n[A-C]\n\d+\n(是|否)")`
applied with `re.match` (anchored at the start, not at the end): the first
three lines are non-empty, the fourth line is exactly `A`, `B` or `C`, the
fifth line is a non-empty run of digits, and the sixth line starts with `是`
or `否`; anything may follow. -/
def validPattern (block : String) : Bool :=
  match splitLinesList block.data with
  | l0 :: l1 :: l2 :: l3 :: l4 :: l5 :: _ =>
    !l0.isEmpty && !l1.isEmpty && !l2.isEmpty
      && (l3 = ['A'] || l3 = ['B'] || l3 = ['C'])
      && !l4.isEmpty && l4.all Char.isDigit
      && (match l5 with
          | c :: _ => c = '是' || c = '否'
          | [] => false)
  | _ => false

/-- The loop body of `parse_response` for the block at position `idx`: strip
the block, test it against `valid_pattern`, and produce either a success
record (fields taken from lines 1–5 of the stripped block) or an error record
tagged `解析错误: ...`.  The `响应行数不足` branch mirrors the source's
`len(lines) < 6` re-check, which is unreachable once the pattern matched. -/
def parseBlock (batch : List String) (idx : Nat) (block : String) : Entry :=
  let b := pyStrip block
  let w := wordAt batch idx
  if validPattern b then
    let lines := splitLines b
    if lines.length < 6 then
      { word := w, error := some "解析错误: 响应行数不足", raw_response := some b }
    else
      { word := w
        reason := some (lines.getD 1 "")
        near_words := some (lines.getD 2 "")
        category := some (lines.getD 3 "")
        confidence := some (lines.getD 4 "")
        is_boundary := some (lines.getD 5 "")
        raw_response := some b }
  else
    { word := w, error := some "解析错误: 响应格式不符合预期", raw_response := some b }

/-- The `for idx, block in enumerate(raw_blocks)` loop of `parse_response`,
starting at position `idx`. -/
def parseEntries (batch : List String) (idx : Nat) : List String → List Entry
  | [] => []
  | b :: bs => parseBlock batch idx b :: parseEntries batch (idx + 1) bs

/-- `response_text.strip().split('\n\n')`. -/
def responseBlocks (response_text : String) : List String :=
  (splitBlankList (pyStripList response_text.data)).map List.asString

/-- The record appended for a batch word that no block record covered: error
`未在响应中找到对应结果`, context `response_text[:200] + "..."`. -/
def missingRecord (response_text w : String) : Entry :=
  { word := w
    error := some "未在响应中找到对应结果"
    raw_response := some (pyTake response_text 200 ++ "...") }

/-- `parse_response(response_text, batch)`: one record per reply block, then
one `未在响应中找到对应结果` record for every batch word not covered by a
block record (the covered-word set is computed once, before those missing
records are appended, exactly as in the source). -/
def parse_response (response_text : String) (batch : List String) : List Entry :=
  let raw_blocks := responseBlocks response_text
  let entries := parseEntries batch 0 raw_blocks
  let processed_words := entries.map (fun e => e.word)
  entries ++ (batch.filter (fun w => !(processed_words.contains w))).map
    (missingRecord response_text)

/-- The progress dictionary `{"last_index": _, "processed": _, "batches": _}`. -/
structure Progress where
  last_index : Nat
  processed : Nat
  batches : List Nat
deriving DecidableEq, Repr

/-- One disk write performed by `main`: a per-batch result CSV, a per-batch
error JSON, or a save of `progress.json` (tagged with the batch number whose
handling performed the write). -/
inductive Artifact where
  | result (batchNum : Nat) (entries : List Entry)
  | errorFile (batchNum : Nat) (entries : List Entry)
  | progressFile (batchNum : Nat) (p : Progress)
deriving DecidableEq, Repr

/-- The batch number an artifact was written for. -/
def Artifact.batchNum : Artifact → Nat
  | .result n _ => n
  | .errorFile n _ => n
  | .progressFile n _ => n

/-- The mutable state of `main`'s loop: the progress dictionary plus the
accumulated disk writes and the batch numbers for which the model client was
actually called. -/
structure RunState where
  progress : Progress
  writes : List Artifact
  calls : List Nat
deriving DecidableEq, Repr

/-- The error rows synthesized by `main`'s `except` handler:
`[{"word": w, "error": str(e)} for w in batch]`. -/
def failEntries (batch : List String) (msg : String) : List Entry :=
  batch.map (fun w => { word := w, error := some msg })

/-- The tenacity policy `@retry(stop=stop_after_attempt(maxRetries), ...)`
around `process_batch`, with the backoff sleeps abstracted away: run the
attempts in order; the first successful attempt's reply is returned; once
`maxRetries` attempts have raised, the wrapper raises `tenacity.RetryError`,
whose message is modelled by the constant string `"RetryError"`. -/
def retryGo (attempts : Nat → Except String String) : Nat → Nat → Except String String
  | _, 0 => Except.error "RetryError"
  | k, n + 1 =>
    match attempts k with
    | Except.ok r => Except.ok r
    | Except.error _ => retryGo attempts (k + 1) n

/-- `process_batch` as seen by `main`: the retried model call (see `retryGo`). -/
def retryCall (attempts : Nat → Except String String) (maxRetries : Nat) :
    Except String String :=
  retryGo attempts 0 maxRetries

/-- The body of `main`'s loop for the batch starting at word offset `i`.
`initBatches` is the `processed_batches` set captured once before the loop;
`oracle i` is the outcome of `process_batch` for this offset (reply text, or
the message of the exception that escaped the retry wrapper). -/
def runStep (BS : Nat) (words : List String) (oracle : Nat → Except String String)
    (initBatches : List Nat) (st : RunState) (i : Nat) : RunState :=
  let batch_num := i / BS + 1
  if batch_num ∈ initBatches then st
  else
    let batch := (words.drop i).take BS
    match oracle i with
    | Except.ok response_text =>
      let entries := parse_response response_text batch
      let error_entries := entries.filter (fun e => e.error.isSome)
      let p' : Progress :=
        { last_index := i + BS
          processed := st.progress.processed + batch.length
          batches := st.progress.batches ++ [batch_num] }
      { progress := p'
        writes := st.writes ++ [Artifact.result batch_num entries]
          ++ (if error_entries.length > 0 then [Artifact.errorFile batch_num error_entries] else [])
          ++ [Artifact.progressFile batch_num p']
        calls := st.calls ++ [batch_num] }
    | Except.error m =>
      let p' : Progress :=
        { last_index := i + BS
          processed := st.progress.processed
          batches := st.progress.batches ++ [batch_num] }
      { progress := p'
        writes := st.writes
          ++ [Artifact.errorFile batch_num (failEntries batch m), Artifact.progressFile batch_num p']
        calls := st.calls ++ [batch_num] }

/-- The offsets visited by `for i in range(start_index, total_words, BATCH_SIZE)`
(for a positive step). -/
def runOffsets (BS total start : Nat) : List Nat :=
  List.range' start ((total - start + BS - 1) / BS) BS

/-- The batch loop of `main`: fold `runStep` over the offsets, starting from
the loaded progress, with `processed_batches` frozen at entry. -/
def runMain (BS : Nat) (words : List String) (oracle : Nat → Except String String)
    (init : Progress) : RunState :=
  (runOffsets BS words.length init.last_index).foldl
    (runStep BS words oracle init.batches) ⟨init, [], []⟩

/-- The summary dictionary returned by `aggregate_results`. -/
structure AggregateResult where
  filename : String
  total_words : Nat
  success_words : Nat
  error_words : Nat
deriving DecidableEq, Repr

/-- `aggregate_results()`, applied to the rows read back from the per-batch
result CSVs (one list per file; a missing/NaN `error` cell is `none`):
concatenate everything, count a row as a success when its `error` value is
absent, and report `error_words` as the difference. -/
def aggregate_results (files : List (List Entry)) : AggregateResult :=
  let all_entries := files.flatten
  let total_words := all_entries.length
  let success_words := (all_entries.filter (fun e => e.error.isNone)).length
  { filename := "final_results.csv"
    total_words := total_words
    success_words := success_words
    error_words := total_words - success_words }


theorem length_parseEntries (batch : List String) (k : Nat) (bs : List String) :
    (parseEntries batch k bs).length = bs.length := by
  induction bs generalizing k with
  | nil => rfl
  | cons b bs ih => simp [parseEntries, ih]

theorem getElem?_parseEntries (batch : List String) (k : Nat) (bs : List String) (i : Nat) :
    (parseEntries batch k bs)[i]? = bs[i]?.map (fun b => parseBlock batch (k + i) b) := by
  induction bs generalizing k i with
  | nil => simp [parseEntries]
  | cons b bs ih =>
    cases i with
    | zero => simp [parseEntries]
    | succ n =>
      have hk : k + (n + 1) = k + 1 + n := by omega
      simp only [parseEntries, List.getElem?_cons_succ, hk, ih (k + 1) n]

theorem mem_parseEntries {batch : List String} {k : Nat} {bs : List String} {e : Entry} :
    e ∈ parseEntries batch k bs ↔ ∃ i b, bs[i]? = some b ∧ e = parseBlock batch (k + i) b := by
  rw [List.mem_iff_getElem?]
  constructor
  · rintro ⟨n, hn⟩
    rw [getElem?_parseEntries] at hn
    rcases hb : bs[n]? with _ | b
    · rw [hb] at hn; simp at hn
    · rw [hb] at hn; simp at hn; exact ⟨n, b, hb, hn.symm⟩
  · rintro ⟨i, b, hb, he⟩
    exact ⟨i, by rw [getElem?_parseEntries, hb, he]; rfl⟩

theorem parseBlock_word (batch : List String) (idx : Nat) (block : String) :
    (parseBlock batch idx block).word = wordAt batch idx := by
  simp only [parseBlock]
  split
  · split <;> rfl
  · rfl

theorem parseBlock_error_of_invalid {block : String} (batch : List String) (idx : Nat)
    (h : validPattern (pyStrip block) = false) :
    parseBlock batch idx block =
      { word := wordAt batch idx, error := some "解析错误: 响应格式不符合预期",
        raw_response := some (pyStrip block) } := by
  simp only [parseBlock, h]
  rfl

theorem validPattern_length {b : String} (h : validPattern b = true) :
    6 ≤ (splitLines b).length := by
  unfold validPattern at h
  unfold splitLines
  generalize hls : splitLinesList b.data = ls at h ⊢
  rcases ls with _ | ⟨l0, _ | ⟨l1, _ | ⟨l2, _ | ⟨l3, _ | ⟨l4, _ | ⟨l5, rest⟩⟩⟩⟩⟩⟩ <;>
    simp_all

theorem parseBlock_success_of_valid {block : String} (batch : List String) (idx : Nat)
    (h : validPattern (pyStrip block) = true) :
    parseBlock batch idx block =
      { word := wordAt batch idx
        reason := some ((splitLines (pyStrip block)).getD 1 "")
        near_words := some ((splitLines (pyStrip block)).getD 2 "")
        category := some ((splitLines (pyStrip block)).getD 3 "")
        confidence := some ((splitLines (pyStrip block)).getD 4 "")
        is_boundary := some ((splitLines (pyStrip block)).getD 5 "")
        raw_response := some (pyStrip block) } := by
  have h6 := validPattern_length h
  simp only [parseBlock, h, if_true, Nat.not_lt.mpr h6]
  simp

theorem parseBlock_error_none_iff (block : String) (batch : List String) (idx : Nat) :
    (parseBlock batch idx block).error = none ↔ validPattern (pyStrip block) = true := by
  cases hv : validPattern (pyStrip block)
  · rw [parseBlock_error_of_invalid batch idx hv]; simp
  · rw [parseBlock_success_of_valid batch idx hv]; simp


theorem parse_response_eq (text : String) (batch : List String) :
    parse_response text batch =
      parseEntries batch 0 (responseBlocks text) ++
        (batch.filter (fun w =>
            !(((parseEntries batch 0 (responseBlocks text)).map (fun e => e.word)).contains w))).map
          (missingRecord text) := rfl

theorem getElem?_parse_response {text : String} {batch : List String} {i : Nat}
    (h : i < (responseBlocks text).length) :
    (parse_response text batch)[i]? =
      some (parseBlock batch i ((responseBlocks text).get ⟨i, h⟩)) := by
  rw [parse_response_eq,
    List.getElem?_append_left (by rw [length_parseEntries]; exact h),
    getElem?_parseEntries, List.getElem?_eq_getElem h]
  simp

theorem mem_word_parse_response {text : String} {batch : List String} {w : String}
    (hw : w ∈ batch) : w ∈ (parse_response text batch).map (fun e => e.word) := by
  rw [parse_response_eq, List.map_append, List.mem_append]
  by_cases hc : w ∈ (parseEntries batch 0 (responseBlocks text)).map (fun e => e.word)
  · exact Or.inl hc
  · right
    rw [List.mem_map]
    refine ⟨missingRecord text w, ?_, rfl⟩
    rw [List.mem_map]
    refine ⟨w, ?_, rfl⟩
    rw [List.mem_filter]
    exact ⟨hw, by simp [List.contains, List.elem_eq_mem, hc]⟩

theorem length_parse_response_of_nodup {text : String} {batch : List String}
    (hnd : batch.Nodup) :
    batch.length ≤ (parse_response text batch).length := by
  classical
  rw [parse_response_eq, List.length_append, length_parseEntries, List.length_map]
  set P := (parseEntries batch 0 (responseBlocks text)).map (fun e => e.word) with hP
  have hsplit := List.length_eq_length_filter_add (l := batch) (fun w => P.contains w)
  beta_reduce at hsplit
  have hsub : (batch.filter (fun w => P.contains w)) ⊆ P := by
    intro x hx
    rw [List.mem_filter] at hx
    have hx2 := hx.2
    simpa [List.contains, List.elem_eq_mem] using hx2
  have hle : (batch.filter (fun w => P.contains w)).length ≤ P.length :=
    (List.subperm_of_subset (hnd.filter _) hsub).length_le
  have hPlen : P.length = (responseBlocks text).length := by
    rw [hP, List.length_map, length_parseEntries]
  omega

theorem wordAt_of_lt {batch : List String} {idx : Nat} (h : idx < batch.length) :
    wordAt batch idx = batch.get ⟨idx, h⟩ := by
  unfold wordAt
  rw [List.getElem?_eq_getElem h]
  rfl

theorem wordAt_of_ge {batch : List String} {idx : Nat} (h : batch.length ≤ idx) :
    wordAt batch idx = "UNKNOWN_" ++ toString idx := by
  unfold wordAt
  rw [List.getElem?_eq_none h]

theorem words_parse_response_iff {text : String} {batch : List String}
    (hnb : (responseBlocks text).length ≤ batch.length) (w : String) :
    w ∈ (parse_response text batch).map (fun e => e.word) ↔ w ∈ batch := by
  constructor
  · rw [parse_response_eq, List.map_append, List.mem_append]
    rintro (hm | hm)
    · rw [List.mem_map] at hm
      rcases hm with ⟨e, he, hwe⟩
      rw [mem_parseEntries] at he
      rcases he with ⟨i, b, hb, rfl⟩
      have hi : i < (responseBlocks text).length := by
        rcases List.getElem?_eq_some.mp hb with ⟨hlt, _⟩
        exact hlt
      rw [parseBlock_word, Nat.zero_add] at hwe
      rw [wordAt_of_lt (Nat.lt_of_lt_of_le hi hnb)] at hwe
      rw [← hwe]
      exact List.get_mem batch i (Nat.lt_of_lt_of_le hi hnb)
    · rw [List.mem_map] at hm
      rcases hm with ⟨x, hx, hwe⟩
      rw [List.mem_map] at hx
      rcases hx with ⟨y, hy, rfl⟩
      rw [List.mem_filter] at hy
      have : (missingRecord text y).word = y := rfl
      rw [this] at hwe
      exact hwe ▸ hy.1
  · exact fun hw => mem_word_parse_response hw


theorem data_asString (l : List Char) : (l.asString).data = l := rfl

theorem asString_eq_string_iff (l : List Char) (s : String) :
    l.asString = s ↔ l = s.data := by
  rw [String.ext_iff]
  exact Iff.rfl

theorem validPattern_iff (b : String) :
    validPattern b = true ↔
      (6 ≤ (splitLines b).length ∧
       (splitLines b).getD 0 "" ≠ "" ∧
       (splitLines b).getD 1 "" ≠ "" ∧
       (splitLines b).getD 2 "" ≠ "" ∧
       ((splitLines b).getD 3 "" = "A" ∨ (splitLines b).getD 3 "" = "B" ∨
         (splitLines b).getD 3 "" = "C") ∧
       (splitLines b).getD 4 "" ≠ "" ∧
       ((splitLines b).getD 4 "").data.all Char.isDigit = true ∧
       (((splitLines b).getD 5 "").data.head? = some '是' ∨
         ((splitLines b).getD 5 "").data.head? = some '否')) := by
  unfold validPattern splitLines
  generalize splitLinesList b.data = ls
  rcases ls with _ | ⟨l0, _ | ⟨l1, _ | ⟨l2, _ | ⟨l3, _ | ⟨l4, _ | ⟨l5, rest⟩⟩⟩⟩⟩⟩ <;>
    [skip; skip; skip; skip; skip; skip; rcases l5 with _ | ⟨c5, t5⟩] <;>
    simp [List.getD, asString_eq_string_iff, data_asString,
      show ("" : String).data = [] from rfl,
      show ("A" : String).data = ['A'] from rfl,
      show ("B" : String).data = ['B'] from rfl,
      show ("C" : String).data = ['C'] from rfl,
      List.isEmpty_iff, Bool.and_eq_true, decide_eq_true_eq] <;>
    try tauto


theorem runStep_skip {BS : Nat} {words : List String} {oracle : Nat → Except String String}
    {initBatches : List Nat} (st : RunState) {i : Nat} (h : i / BS + 1 ∈ initBatches) :
    runStep BS words oracle initBatches st i = st := by
  simp [runStep, h]

theorem runStep_error (BS : Nat) (words : List String) (oracle : Nat → Except String String)
    (initBatches : List Nat) (st : RunState) {i : Nat} {m : String}
    (h : i / BS + 1 ∉ initBatches) (ho : oracle i = Except.error m) :
    runStep BS words oracle initBatches st i =
      { progress :=
          { last_index := i + BS
            processed := st.progress.processed
            batches := st.progress.batches ++ [i / BS + 1] }
        writes := st.writes ++
          [Artifact.errorFile (i / BS + 1) (failEntries ((words.drop i).take BS) m),
           Artifact.progressFile (i / BS + 1)
             { last_index := i + BS
               processed := st.progress.processed
               batches := st.progress.batches ++ [i / BS + 1] }]
        calls := st.calls ++ [i / BS + 1] } := by
  simp [runStep, h, ho]

theorem runStep_ok (BS : Nat) (words : List String) (oracle : Nat → Except String String)
    (initBatches : List Nat) (st : RunState) {i : Nat} {r : String}
    (h : i / BS + 1 ∉ initBatches) (ho : oracle i = Except.ok r) :
    runStep BS words oracle initBatches st i =
      { progress :=
          { last_index := i + BS
            processed := st.progress.processed + ((words.drop i).take BS).length
            batches := st.progress.batches ++ [i / BS + 1] }
        writes := st.writes ++ [Artifact.result (i / BS + 1) (parse_response r ((words.drop i).take BS))]
          ++ (if ((parse_response r ((words.drop i).take BS)).filter (fun e => e.error.isSome)).length > 0
              then [Artifact.errorFile (i / BS + 1)
                      ((parse_response r ((words.drop i).take BS)).filter (fun e => e.error.isSome))]
              else [])
          ++ [Artifact.progressFile (i / BS + 1)
               { last_index := i + BS
                 processed := st.progress.processed + ((words.drop i).take BS).length
                 batches := st.progress.batches ++ [i / BS + 1] }]
        calls := st.calls ++ [i / BS + 1] } := by
  simp [runStep, h, ho]

theorem runStep_last_index (BS : Nat) (words : List String) (oracle : Nat → Except String String)
    (initBatches : List Nat) (st : RunState) (i : Nat) :
    (runStep BS words oracle initBatches st i).progress.last_index = st.progress.last_index ∨
      (runStep BS words oracle initBatches st i).progress.last_index = i + BS := by
  by_cases h : i / BS + 1 ∈ initBatches
  · rw [runStep_skip st h]; exact Or.inl rfl
  · rcases ho : oracle i with m | r
    · rw [runStep_error BS words oracle initBatches st h ho]; exact Or.inr rfl
    · rw [runStep_ok BS words oracle initBatches st h ho]; exact Or.inr rfl

theorem runStep_batches (BS : Nat) (words : List String) (oracle : Nat → Except String String)
    (initBatches : List Nat) (st : RunState) (i : Nat) :
    (runStep BS words oracle initBatches st i).progress.batches = st.progress.batches ∨
      (runStep BS words oracle initBatches st i).progress.batches =
        st.progress.batches ++ [i / BS + 1] := by
  by_cases h : i / BS + 1 ∈ initBatches
  · rw [runStep_skip st h]; exact Or.inl rfl
  · rcases ho : oracle i with m | r
    · rw [runStep_error BS words oracle initBatches st h ho]; exact Or.inr rfl
    · rw [runStep_ok BS words oracle initBatches st h ho]; exact Or.inr rfl

theorem mem_writes_runStep {BS : Nat} {words : List String} {oracle : Nat → Except String String}
    {initBatches : List Nat} {st : RunState} {i : Nat} {a : Artifact}
    (ha : a ∈ (runStep BS words oracle initBatches st i).writes) :
    a ∈ st.writes ∨ a.batchNum = i / BS + 1 := by
  by_cases h : i / BS + 1 ∈ initBatches
  · rw [runStep_skip st h] at ha; exact Or.inl ha
  · rcases ho : oracle i with m | r
    · rw [runStep_error BS words oracle initBatches st h ho] at ha
      simp only [List.mem_append, List.mem_cons, List.mem_singleton] at ha
      rcases ha with ha | ha | ha | ha
      · exact Or.inl ha
      · exact Or.inr (ha ▸ rfl)
      · exact Or.inr (ha ▸ rfl)
      · exact absurd ha (List.not_mem_nil a)
    · rw [runStep_ok BS words oracle initBatches st h ho] at ha
      simp only [List.append_assoc, List.mem_append, List.mem_singleton] at ha
      rcases ha with ha | ha | ha | ha
      · exact Or.inl ha
      · exact Or.inr (ha ▸ rfl)
      · split at ha
        · rcases List.mem_singleton.mp ha with rfl; exact Or.inr rfl
        · exact absurd ha (List.not_mem_nil a)
      · exact Or.inr (ha ▸ rfl)

theorem mem_calls_runStep {BS : Nat} {words : List String} {oracle : Nat → Except String String}
    {initBatches : List Nat} {st : RunState} {i : Nat} {b : Nat}
    (hb : b ∈ (runStep BS words oracle initBatches st i).calls) :
    b ∈ st.calls ∨ b = i / BS + 1 := by
  by_cases h : i / BS + 1 ∈ initBatches
  · rw [runStep_skip st h] at hb; exact Or.inl hb
  · rcases ho : oracle i with m | r
    · rw [runStep_error BS words oracle initBatches st h ho] at hb
      simpa using hb
    · rw [runStep_ok BS words oracle initBatches st h ho] at hb
      simpa using hb


theorem foldl_writes_not_init {BS : Nat} {words : List String}
    {oracle : Nat → Except String String} {initBatches : List Nat} :
    ∀ (l : List Nat) (st : RunState) (a : Artifact),
      a ∈ ((l.foldl (runStep BS words oracle initBatches) st).writes) →
      a ∈ st.writes ∨ a.batchNum ∉ initBatches := by
  intro l
  induction l with
  | nil => exact fun st a ha => Or.inl ha
  | cons i l ih =>
    intro st a ha
    rcases ih (runStep BS words oracle initBatches st i) a ha with h | h
    · by_cases hm : i / BS + 1 ∈ initBatches
      · rw [runStep_skip st hm] at h; exact Or.inl h
      · rcases mem_writes_runStep h with h | h
        · exact Or.inl h
        · exact Or.inr (h ▸ hm)
    · exact Or.inr h

theorem foldl_calls_not_init {BS : Nat} {words : List String}
    {oracle : Nat → Except String String} {initBatches : List Nat} :
    ∀ (l : List Nat) (st : RunState) (b : Nat),
      b ∈ ((l.foldl (runStep BS words oracle initBatches) st).calls) →
      b ∈ st.calls ∨ b ∉ initBatches := by
  intro l
  induction l with
  | nil => exact fun st b hb => Or.inl hb
  | cons i l ih =>
    intro st b hb
    rcases ih (runStep BS words oracle initBatches st i) b hb with h | h
    · by_cases hm : i / BS + 1 ∈ initBatches
      · rw [runStep_skip st hm] at h; exact Or.inl h
      · rcases mem_calls_runStep h with h | h
        · exact Or.inl h
        · exact Or.inr (h ▸ hm)
    · exact Or.inr h

theorem foldl_last_index_dvd {BS : Nat} {words : List String}
    {oracle : Nat → Except String String} {initBatches : List Nat} :
    ∀ (l : List Nat) (st : RunState), (∀ i ∈ l, BS ∣ i) → BS ∣ st.progress.last_index →
      BS ∣ ((l.foldl (runStep BS words oracle initBatches) st).progress.last_index) := by
  intro l
  induction l with
  | nil => exact fun st _ hst => hst
  | cons i l ih =>
    intro st hl hst
    refine ih _ (fun j hj => hl j (List.mem_cons_of_mem i hj)) ?_
    rcases runStep_last_index BS words oracle initBatches st i with h | h
    · rw [h]; exact hst
    · rw [h]
      exact Nat.dvd_add (hl i (List.mem_cons_self i l)) dvd_rfl

theorem foldl_batches_grow {BS : Nat} {words : List String}
    {oracle : Nat → Except String String} {initBatches : List Nat} :
    ∀ (l : List Nat) (st : RunState),
      ∃ t, ((l.foldl (runStep BS words oracle initBatches) st).progress.batches) =
        st.progress.batches ++ t := by
  intro l
  induction l with
  | nil => exact fun st => ⟨[], (List.append_nil _).symm⟩
  | cons i l ih =>
    intro st
    rcases ih (runStep BS words oracle initBatches st i) with ⟨t, ht⟩
    rcases runStep_batches BS words oracle initBatches st i with h | h
    · exact ⟨t, by rw [List.foldl_cons, ht, h]⟩
    · exact ⟨[i / BS + 1] ++ t, by rw [List.foldl_cons, ht, h, List.append_assoc]⟩

theorem mem_runOffsets {BS total start : Nat} (hBS : 0 < BS) (i : Nat) :
    i ∈ runOffsets BS total start ↔ start ≤ i ∧ i < total ∧ BS ∣ (i - start) := by
  unfold runOffsets
  rw [List.mem_range']
  constructor
  · rintro ⟨j, hj, rfl⟩
    refine ⟨Nat.le_add_right _ _, ?_, ?_⟩
    · have h1 : j + 1 ≤ (total - start + BS - 1) / BS := hj
      rw [Nat.le_div_iff_mul_le hBS] at h1
      have hx : (j + 1) * BS = BS * j + BS := by ring
      rw [hx] at h1
      generalize BS * j = X at h1 ⊢
      omega
    · have hx : start + BS * j - start = BS * j := by omega
      rw [hx]
      exact Dvd.intro j rfl
  · rintro ⟨h1, h2, j, hj⟩
    refine ⟨j, ?_, ?_⟩
    · rw [← Nat.succ_le, Nat.le_div_iff_mul_le hBS]
      have hx : (j + 1) * BS = BS * j + BS := by ring
      rw [hx]
      generalize hX : BS * j = X at hj ⊢
      omega
    · generalize hX : BS * j = X at hj ⊢
      omega

theorem head?_runOffsets {BS total start : Nat} (hBS : 0 < BS) (h : start < total) :
    (runOffsets BS total start).head? = some start := by
  unfold runOffsets
  have hn : 0 < (total - start + BS - 1) / BS :=
    (Nat.le_div_iff_mul_le hBS).mpr (by omega)
  rcases Nat.exists_eq_succ_of_ne_zero (Nat.pos_iff_ne_zero.mp hn) with ⟨n, hn2⟩
  rw [hn2]
  rfl

theorem retryGo_error (attempts : Nat → Except String String) :
    ∀ (n k : Nat), (∀ j, j < n → ∃ m, attempts (k + j) = Except.error m) →
      retryGo attempts k n = Except.error "RetryError" := by
  intro n
  induction n with
  | zero => exact fun k _ => rfl
  | succ n ih =>
    intro k h
    rcases h 0 (Nat.succ_pos n) with ⟨m, hm⟩
    rw [Nat.add_zero] at hm
    have hrec : retryGo attempts (k + 1) n = Except.error "RetryError" := by
      refine ih (k + 1) (fun j hj => ?_)
      have hstep := h (j + 1) (Nat.succ_lt_succ hj)
      have hx : k + (j + 1) = k + 1 + j := by omega
      rwa [hx] at hstep
    simp [retryGo, hm, hrec]

theorem retryCall_error {attempts : Nat → Except String String} {n : Nat}
    (h : ∀ j, j < n → ∃ m, attempts j = Except.error m) :
    retryCall attempts n = Except.error "RetryError" := by
  unfold retryCall
  exact retryGo_error attempts n 0 (fun j hj => by simpa using h j hj)


theorem getD_eq_get {α : Type} {l : List α} {i : Nat} (h : i < l.length) (d : α) :
    l.getD i d = l.get ⟨i, h⟩ := by
  rw [List.getD_eq_getElem?_getD, List.getElem?_eq_getElem h]
  rfl

theorem splitBlankList_ne_nil (l : List Char) : splitBlankList l ≠ [] := by
  unfold splitBlankList
  split
  · simp
  · simp
  · split <;> simp

theorem length_parse_response_pos (text : String) (batch : List String) :
    0 < (parse_response text batch).length := by
  rw [parse_response_eq, List.length_append, length_parseEntries]
  have h := splitBlankList_ne_nil (pyStripList text.data)
  have h2 : (responseBlocks text).length ≠ 0 := by
    unfold responseBlocks
    rw [List.length_map]
    exact fun h0 => h (List.length_eq_zero.mp h0)
  omega

theorem parseBlock_shape (batch : List String) (idx : Nat) (block : String) :
    ((parseBlock batch idx block).error = none ∧
      (parseBlock batch idx block).reason.isSome = true ∧
      (parseBlock batch idx block).near_words.isSome = true ∧
      (parseBlock batch idx block).category.isSome = true ∧
      (parseBlock batch idx block).confidence.isSome = true ∧
      (parseBlock batch idx block).is_boundary.isSome = true ∧
      (parseBlock batch idx block).raw_response.isSome = true) ∨
    ((parseBlock batch idx block).error.isSome = true ∧
      (parseBlock batch idx block).reason = none ∧
      (parseBlock batch idx block).raw_response.isSome = true) := by
  simp only [parseBlock]
  split
  · split
    · exact Or.inr ⟨rfl, rfl, rfl⟩
    · exact Or.inl ⟨rfl, rfl, rfl, rfl, rfl, rfl, rfl⟩
  · exact Or.inr ⟨rfl, rfl, rfl⟩

theorem success_mem_parseEntries {text : String} {batch : List String} {e : Entry}
    (he : e ∈ parse_response text batch) (hs : e.error = none) :
    e ∈ parseEntries batch 0 (responseBlocks text) := by
  rw [parse_response_eq, List.mem_append] at he
  rcases he with h | h
  · exact h
  · exfalso
    rw [List.mem_map] at h
    rcases h with ⟨w, _, rfl⟩
    simp [missingRecord] at hs

theorem missing_mem_parse_response {text : String} {batch : List String} {w : String}
    (hw : w ∈ batch)
    (hnc : w ∉ (parseEntries batch 0 (responseBlocks text)).map (fun e => e.word)) :
    missingRecord text w ∈ parse_response text batch := by
  rw [parse_response_eq, List.mem_append]
  right
  rw [List.mem_map]
  refine ⟨w, ?_, rfl⟩
  rw [List.mem_filter]
  exact ⟨hw, by simp [List.contains, List.elem_eq_mem, hnc]⟩

/-- C1 (amended).  For every reply text and batch, `parse_response` covers
every batch word (each word of the batch is the `word` of some record).  When
the batch has no duplicate words, the number of records is at least the batch
length; and when additionally the reply splits into at most `|batch|` blocks,
the set of words carried by the records equals exactly the set of words of the
batch.  (Unrestricted, the claim fails: duplicated batch words can collapse
the record count below `|batch|`, and surplus blocks introduce `UNKNOWN_i`
placeholder words.) -/
theorem parse_response_coverage_count_words (text : String) (batch : List String) :
    (∀ w ∈ batch, w ∈ (parse_response text batch).map (fun e => e.word)) ∧
    (batch.Nodup → batch.length ≤ (parse_response text batch).length) ∧
    ((responseBlocks text).length ≤ batch.length →
      ∀ w, w ∈ (parse_response text batch).map (fun e => e.word) ↔ w ∈ batch) :=
  ⟨fun _ hw => mem_word_parse_response hw,
   fun hnd => length_parse_response_of_nodup hnd,
   fun hnb w => words_parse_response_iff hnb w⟩

/-- C1, counterexample to the claim as stated: for the duplicated batch
`["甲", "甲"]` and a one-block reply, `parse_response` returns a single
record, fewer than the batch length; and for batch `["甲"]` with a two-block
reply it introduces the foreign word `UNKNOWN_1`, so the word set is not the
batch's word set. -/
theorem parse_response_count_words_cex :
    (parse_response "乱码" ["甲", "甲"]).length = 1 ∧ 1 < (["甲", "甲"] : List String).length ∧
    "UNKNOWN_1" ∈ (parse_response "乱码\n\n乱码" ["甲"]).map (fun e => e.word) ∧
    "UNKNOWN_1" ∉ (["甲"] : List String) := by
  decide

theorem parse_response_coverage_count_words_witness :
    "乙" ∈ (parse_response "乱码" ["甲", "乙"]).map (fun e => e.word) ∧
    (["甲", "乙"] : List String).length ≤ (parse_response "乱码" ["甲", "乙"]).length ∧
    ("丙" ∈ (parse_response "乱码" ["甲", "乙"]).map (fun e => e.word) ↔ "丙" ∈ (["甲", "乙"] : List String)) := by
  have h := parse_response_coverage_count_words "乱码" ["甲", "乙"]
  exact ⟨h.1 "乙" (by decide), h.2.1 (by decide), h.2.2 (by decide) "丙"⟩

/-- C4.  Every batch word not covered by a block-derived record yields an
appended `ErrorRecord` carrying the error `未在响应中找到对应结果`
("missing from response") and, as context, the first 200 characters of the
full reply followed by `"..."`; in particular, for a batch of three distinct
words and a reply containing only two valid blocks, the parser yields exactly
three records, the third being such a missing-from-response error. -/
theorem parse_response_missing_records (text : String) (batch : List String) :
    (∀ w ∈ batch,
      w ∉ (parseEntries batch 0 (responseBlocks text)).map (fun e => e.word) →
      missingRecord text w ∈ parse_response text batch) ∧
    (∀ w, missingRecord text w =
      { word := w, error := some "未在响应中找到对应结果",
        raw_response := some (pyTake text 200 ++ "...") }) ∧
    ((parse_response "甲\n理由一\n近一,近二\nA\n8\n否\n\n乙\n理由二\n近三,近四\nB\n7\n是"
        ["甲", "乙", "丙"]).length = 3 ∧
      (parse_response "甲\n理由一\n近一,近二\nA\n8\n否\n\n乙\n理由二\n近三,近四\nB\n7\n是"
        ["甲", "乙", "丙"])[2]? =
        some (missingRecord "甲\n理由一\n近一,近二\nA\n8\n否\n\n乙\n理由二\n近三,近四\nB\n7\n是" "丙")) :=
  ⟨fun _ hw hnc => missing_mem_parse_response hw hnc, fun _ => rfl, by decide, by decide⟩

theorem parse_response_missing_records_witness :
    missingRecord "乱码" "乙" ∈ parse_response "乱码" ["甲", "乙"] := by
  have h := parse_response_missing_records "乱码" ["甲", "乙"]
  exact h.1 "乙" (by decide) (by decide)

/-- C10.  `parse_response` is total: every reply string (including the empty
string) and every word list (including the empty list) yield a non-empty list
of records, and every record is either a success record (no `error` field;
`reason`, `near_words`, `category`, `confidence`, `is_boundary` and
`raw_response` all present) or an error record (an `error` field is present,
`reason` is absent, and `raw_response` is present). -/
theorem parse_response_total_shape (text : String) (batch : List String) :
    0 < (parse_response text batch).length ∧
    ∀ e ∈ parse_response text batch,
      (e.error = none ∧ e.reason.isSome = true ∧ e.near_words.isSome = true ∧
        e.category.isSome = true ∧ e.confidence.isSome = true ∧
        e.is_boundary.isSome = true ∧ e.raw_response.isSome = true) ∨
      (e.error.isSome = true ∧ e.reason = none ∧ e.raw_response.isSome = true) := by
  refine ⟨length_parse_response_pos text batch, fun e he => ?_⟩
  rw [parse_response_eq, List.mem_append] at he
  rcases he with h | h
  · rw [mem_parseEntries] at h
    rcases h with ⟨i, b, _, rfl⟩
    exact parseBlock_shape batch (0 + i) b
  · rw [List.mem_map] at h
    rcases h with ⟨w, _, rfl⟩
    exact Or.inr ⟨rfl, rfl, rfl⟩

theorem parse_response_total_shape_witness :
    0 < (parse_response "" ([] : List String)).length ∧
    ((({ word := "UNKNOWN_0", error := some "解析错误: 响应格式不符合预期", raw_response := some "" } : Entry).error = none ∧ ({ word := "UNKNOWN_0", error := some "解析错误: 响应格式不符合预期", raw_response := some "" } : Entry).reason.isSome = true ∧ ({ word := "UNKNOWN_0", error := some "解析错误: 响应格式不符合预期", raw_response := some "" } : Entry).near_words.isSome = true ∧ ({ word := "UNKNOWN_0", error := some "解析错误: 响应格式不符合预期", raw_response := some "" } : Entry).category.isSome = true ∧ ({ word := "UNKNOWN_0", error := some "解析错误: 响应格式不符合预期", raw_response := some "" } : Entry).confidence.isSome = true ∧ ({ word := "UNKNOWN_0", error := some "解析错误: 响应格式不符合预期", raw_response := some "" } : Entry).is_boundary.isSome = true ∧ ({ word := "UNKNOWN_0", error := some "解析错误: 响应格式不符合预期", raw_response := some "" } : Entry).raw_response.isSome = true) ∨
      (({ word := "UNKNOWN_0", error := some "解析错误: 响应格式不符合预期", raw_response := some "" } : Entry).error.isSome = true ∧ ({ word := "UNKNOWN_0", error := some "解析错误: 响应格式不符合预期", raw_response := some "" } : Entry).reason = none ∧ ({ word := "UNKNOWN_0", error := some "解析错误: 响应格式不符合预期", raw_response := some "" } : Entry).raw_response.isSome = true)) := by
  have h := parse_response_total_shape "" ([] : List String)
  exact ⟨h.1, h.2 { word := "UNKNOWN_0", error := some "解析错误: 响应格式不符合预期", raw_response := some "" } (by decide)⟩


/-- C2 (amended).  For every reply and batch, the record at block position `i`
is the success record built from lines 1–5 of the stripped block (with word
`batch[i]`, or `UNKNOWN_i` past the batch length, via `wordAt`) exactly when
the stripped block has at least 6 lines of which the first three are
non-empty, line 4 is exactly one of `A`/`B`/`C`, line 5 is a non-empty string
of digits (so `0` is accepted), and line 6 merely begins with `是` or `否`;
in particular a reply block of exactly 6 lines with category `B`, confidence
`7`, boundary `否` yields a success record with category `"B"`.  (The claim's
stricter reading — line 5 a positive integer and line 6 exactly `是`/`否` —
fails on the code.) -/
theorem parse_response_success_record_iff (text : String) (batch : List String) (i : Nat)
    (h : i < (responseBlocks text).length) :
    (((parse_response text batch)[i]? = some
        { word := wordAt batch i
          reason := some ((splitLines (pyStrip ((responseBlocks text).getD i ""))).getD 1 "")
          near_words := some ((splitLines (pyStrip ((responseBlocks text).getD i ""))).getD 2 "")
          category := some ((splitLines (pyStrip ((responseBlocks text).getD i ""))).getD 3 "")
          confidence := some ((splitLines (pyStrip ((responseBlocks text).getD i ""))).getD 4 "")
          is_boundary := some ((splitLines (pyStrip ((responseBlocks text).getD i ""))).getD 5 "")
          raw_response := some (pyStrip ((responseBlocks text).getD i "")) }) ↔
      (6 ≤ (splitLines (pyStrip ((responseBlocks text).getD i ""))).length ∧
       (splitLines (pyStrip ((responseBlocks text).getD i ""))).getD 0 "" ≠ "" ∧
       (splitLines (pyStrip ((responseBlocks text).getD i ""))).getD 1 "" ≠ "" ∧
       (splitLines (pyStrip ((responseBlocks text).getD i ""))).getD 2 "" ≠ "" ∧
       ((splitLines (pyStrip ((responseBlocks text).getD i ""))).getD 3 "" = "A" ∨
        (splitLines (pyStrip ((responseBlocks text).getD i ""))).getD 3 "" = "B" ∨
        (splitLines (pyStrip ((responseBlocks text).getD i ""))).getD 3 "" = "C") ∧
       (splitLines (pyStrip ((responseBlocks text).getD i ""))).getD 4 "" ≠ "" ∧
       ((splitLines (pyStrip ((responseBlocks text).getD i ""))).getD 4 "").data.all Char.isDigit = true ∧
       (((splitLines (pyStrip ((responseBlocks text).getD i ""))).getD 5 "").data.head? = some '是' ∨
        ((splitLines (pyStrip ((responseBlocks text).getD i ""))).getD 5 "").data.head? = some '否'))) ∧
    (parse_response "摸鱼\n原表捕鱼现新增偷懒含义属语义本质变化\n偷懒,划水\nB\n7\n否" ["摸鱼"] =
      [{ word := "摸鱼", reason := some "原表捕鱼现新增偷懒含义属语义本质变化", near_words := some "偷懒,划水", category := some "B", confidence := some "7", is_boundary := some "否", raw_response := some "摸鱼\n原表捕鱼现新增偷懒含义属语义本质变化\n偷懒,划水\nB\n7\n否" }]) := by
  have hget : (responseBlocks text).getD i "" = (responseBlocks text).get ⟨i, h⟩ :=
    getD_eq_get h ""
  constructor
  · rw [hget]
    rw [← validPattern_iff (pyStrip ((responseBlocks text).get ⟨i, h⟩))]
    constructor
    · intro heq
      rw [getElem?_parse_response h] at heq
      have hrec := Option.some.inj heq
      rw [← parseBlock_error_none_iff ((responseBlocks text).get ⟨i, h⟩) batch i]
      rw [hrec]
    · intro hv
      rw [getElem?_parse_response h, parseBlock_success_of_valid batch i hv]
  · decide

theorem parse_response_success_record_iff_witness :
    ((parse_response "甲\n理由\n近词一,近词二\nA\n9\n否" ["甲"])[0]? = some
      { word := "甲", reason := some "理由", near_words := some "近词一,近词二", category := some "A", confidence := some "9", is_boundary := some "否", raw_response := some "甲\n理由\n近词一,近词二\nA\n9\n否" }) ∧
    (parse_response "摸鱼\n原表捕鱼现新增偷懒含义属语义本质变化\n偷懒,划水\nB\n7\n否" ["摸鱼"] =
      [{ word := "摸鱼", reason := some "原表捕鱼现新增偷懒含义属语义本质变化", near_words := some "偷懒,划水", category := some "B", confidence := some "7", is_boundary := some "否", raw_response := some "摸鱼\n原表捕鱼现新增偷懒含义属语义本质变化\n偷懒,划水\nB\n7\n否" }]) := by
  have h := parse_response_success_record_iff "甲\n理由\n近词一,近词二\nA\n9\n否" ["甲"] 0 (by decide)
  exact ⟨h.1.mpr (by decide), h.2⟩

/-- C2, counterexample to the claim as stated: a 6-line block whose fifth
line is `"0"` (not a positive integer) and whose sixth line is `"是的"`
(neither exactly `是` nor exactly `否`) is nevertheless classified as a
success record. -/
theorem parse_response_success_record_iff_cex :
    parse_response "词\n理由\n近词\nA\n0\n是的" ["词"] =
      [{ word := "词", reason := some "理由", near_words := some "近词", category := some "A", confidence := some "0", is_boundary := some "是的", raw_response := some "词\n理由\n近词\nA\n0\n是的" }] ∧
    (splitLines "词\n理由\n近词\nA\n0\n是的").getD 4 "" = "0" ∧
    (splitLines "词\n理由\n近词\nA\n0\n是的").getD 5 "" = "是的" ∧
    ("是的" : String) ≠ "是" ∧ ("是的" : String) ≠ "否" := by
  exact ⟨by decide, by decide, by decide, by decide, by decide⟩

/-- C5.  A malformed block (one the structural pattern rejects, for example a
block of only four lines) yields, at its position, an error record whose
error is the format message `解析错误: 响应格式不符合预期`, and the parser
does not raise: every other position's record is still the one computed from
its own block alone. -/
theorem parse_response_malformed_isolated (text : String) (batch : List String) (i : Nat)
    (h : i < (responseBlocks text).length)
    (hbad : validPattern (pyStrip ((responseBlocks text).getD i "")) = false) :
    (parse_response text batch)[i]? = some
      { word := wordAt batch i, error := some "解析错误: 响应格式不符合预期", raw_response := some (pyStrip ((responseBlocks text).getD i "")) } ∧
    ∀ j, ∀ hj : j < (responseBlocks text).length,
      (parse_response text batch)[j]? = some (parseBlock batch j ((responseBlocks text).getD j "")) := by
  have hget : (responseBlocks text).getD i "" = (responseBlocks text).get ⟨i, h⟩ :=
    getD_eq_get h ""
  constructor
  · rw [hget] at hbad ⊢
    rw [getElem?_parse_response h, parseBlock_error_of_invalid batch i hbad]
  · intro j hj
    rw [getD_eq_get hj "", getElem?_parse_response hj]

theorem parse_response_malformed_isolated_witness :
    (parse_response "第一\n第二\n第三\n第四\n\n乙\n理由\n近词\nB\n7\n否" ["丁", "乙"])[0]? = some
      { word := "丁", error := some "解析错误: 响应格式不符合预期", raw_response := some "第一\n第二\n第三\n第四" } ∧
    (parse_response "第一\n第二\n第三\n第四\n\n乙\n理由\n近词\nB\n7\n否" ["丁", "乙"])[1]? = some
      (parseBlock ["丁", "乙"] 1 (("第一\n第二\n第三\n第四\n\n乙\n理由\n近词\nB\n7\n否" : String) |> responseBlocks |>.getD 1 "")) := by
  have h := parse_response_malformed_isolated "第一\n第二\n第三\n第四\n\n乙\n理由\n近词\nB\n7\n否" ["丁", "乙"] 0 (by decide) (by decide)
  exact ⟨h.1, h.2 1 (by decide)⟩


/-- C6 (amended).  Within one batch's parser output, a batch word is either a
success or an error, never both — provided the batch's words are pairwise
distinct and no batch word collides with a placeholder `UNKNOWN_j` for a
block position `j`.  (Unrestricted, the claim fails: a duplicated batch word
can receive a success record from one block and an error record from
another.) -/
theorem parse_response_word_exclusive (text : String) (batch : List String)
    (hnd : batch.Nodup)
    (hu : ∀ w ∈ batch, ∀ j, j < (responseBlocks text).length → w ≠ "UNKNOWN_" ++ toString j)
    (w : String) (hw : w ∈ batch) :
    ¬ ((∃ e ∈ parse_response text batch, e.word = w ∧ e.error = none) ∧
       (∃ e ∈ parse_response text batch, e.word = w ∧ e.error.isSome = true)) := by
  rintro ⟨⟨es, hes, hesw, hese⟩, ⟨ee, hee, heew, heee⟩⟩
  have hesb := success_mem_parseEntries hes hese
  rw [mem_parseEntries] at hesb
  rcases hesb with ⟨i, bi, hbi, rfl⟩
  rw [Nat.zero_add] at hesw hese
  have hi : i < (responseBlocks text).length := (List.getElem?_eq_some.mp hbi).1
  have hesw2 : wordAt batch i = w := by rw [← parseBlock_word batch i bi]; exact hesw
  have hilt : i < batch.length := by
    by_contra hge
    push_neg at hge
    rw [wordAt_of_ge hge] at hesw2
    exact hu w hw i hi hesw2.symm
  rw [parse_response_eq, List.mem_append] at hee
  rcases hee with hee | hee
  · rw [mem_parseEntries] at hee
    rcases hee with ⟨j, bj, hbj, rfl⟩
    rw [Nat.zero_add] at heew heee
    have hj : j < (responseBlocks text).length := (List.getElem?_eq_some.mp hbj).1
    have heew2 : wordAt batch j = w := by rw [← parseBlock_word batch j bj]; exact heew
    have hjlt : j < batch.length := by
      by_contra hge
      push_neg at hge
      rw [wordAt_of_ge hge] at heew2
      exact hu w hw j hj heew2.symm
    have hij : i = j := by
      have h1 : batch.get ⟨i, hilt⟩ = w := by rw [← wordAt_of_lt hilt]; exact hesw2
      have h2 : batch.get ⟨j, hjlt⟩ = w := by rw [← wordAt_of_lt hjlt]; exact heew2
      have h3 := hnd.get_inj_iff.mp (h1.trans h2.symm)
      exact congrArg Fin.val h3
    subst hij
    have hbb : bi = bj := by
      rw [hbi] at hbj
      exact Option.some.inj hbj
    subst hbb
    rw [hese] at heee
    simp at heee
  · rw [List.mem_map] at hee
    rcases hee with ⟨x, hx, rfl⟩
    rw [List.mem_filter] at hx
    have hxw : (missingRecord text x).word = x := rfl
    rw [hxw] at heew
    subst heew
    have hmem : parseBlock batch (0 + i) bi ∈ parseEntries batch 0 (responseBlocks text) :=
      mem_parseEntries.mpr ⟨i, bi, hbi, rfl⟩
    have hword : (parseBlock batch (0 + i) bi).word = x := by
      rw [Nat.zero_add, parseBlock_word]
      exact hesw2
    have hcontains :
        ((parseEntries batch 0 (responseBlocks text)).map (fun e => e.word)).contains x = true := by
      simp only [List.contains, List.elem_eq_mem, decide_eq_true_eq, List.mem_map]
      exact ⟨parseBlock batch (0 + i) bi, hmem, hword⟩
    have hx2 := hx.2
    rw [hcontains] at hx2
    simp at hx2

theorem parse_response_word_exclusive_witness :
    ¬ ((∃ e ∈ parse_response "甲\n理由\n近词\nA\n7\n否\n\n乱码" ["甲", "乙"], e.word = "甲" ∧ e.error = none) ∧
       (∃ e ∈ parse_response "甲\n理由\n近词\nA\n7\n否\n\n乱码" ["甲", "乙"], e.word = "甲" ∧ e.error.isSome = true)) := by
  refine parse_response_word_exclusive "甲\n理由\n近词\nA\n7\n否\n\n乱码" ["甲", "乙"] (by decide) ?_ "甲" (by decide)
  decide

/-- C6, counterexample to the claim as stated: with the duplicated batch
`["甲", "甲"]` and a reply whose first block is valid and second block is
malformed, the word `甲` appears both in a success record and in an error
record of the same parser output. -/
theorem parse_response_word_exclusive_cex :
    (∃ e ∈ parse_response "甲\n理由\n近词\nA\n7\n否\n\n乱码" ["甲", "甲"], e.word = "甲" ∧ e.error = none) ∧
    (∃ e ∈ parse_response "甲\n理由\n近词\nA\n7\n否\n\n乱码" ["甲", "甲"], e.word = "甲" ∧ e.error.isSome = true) := by
  decide


/-- C3.  When every one of the `maxRetries` attempts of the model call for a
batch raises, the retry wrapper raises (the batch outcome is Failed), and the
handling of that batch writes exactly one ErrorRecord per word of the batch,
each carrying the exception's message, to the error artifact; it still sets
`Progress.lastIndex` to the batch offset plus `BS` (an advance of exactly
`BS` from a cleanly-resumed cursor), appends the batch number to
`completedBatches`, and persists the progress; a future run whose loaded
`completedBatches` contains this batch number skips the batch entirely. -/
theorem batch_failure_contract (BS maxRetries : Nat) (words : List String)
    (attempts oracle : Nat → Except String String) (initBatches : List Nat)
    (st : RunState) (i : Nat)
    (hfail : ∀ k, k < maxRetries → ∃ m, attempts k = Except.error m)
    (hnotdone : i / BS + 1 ∉ initBatches)
    (horacle : oracle i = retryCall attempts maxRetries) :
    retryCall attempts maxRetries = Except.error "RetryError" ∧
    (runStep BS words oracle initBatches st i).writes = st.writes ++
      [Artifact.errorFile (i / BS + 1) (failEntries ((words.drop i).take BS) "RetryError"),
       Artifact.progressFile (i / BS + 1) (runStep BS words oracle initBatches st i).progress] ∧
    (failEntries ((words.drop i).take BS) "RetryError").length = ((words.drop i).take BS).length ∧
    (∀ e ∈ failEntries ((words.drop i).take BS) "RetryError",
      e.error = some "RetryError" ∧ e.word ∈ (words.drop i).take BS) ∧
    (runStep BS words oracle initBatches st i).progress.last_index = i + BS ∧
    (st.progress.last_index = i →
      (runStep BS words oracle initBatches st i).progress.last_index =
        st.progress.last_index + BS) ∧
    (runStep BS words oracle initBatches st i).progress.batches =
      st.progress.batches ++ [i / BS + 1] ∧
    (∀ (oracle2 : Nat → Except String String) (initB2 : List Nat) (st2 : RunState),
      i / BS + 1 ∈ initB2 → runStep BS words oracle2 initB2 st2 i = st2) := by
  have hret : retryCall attempts maxRetries = Except.error "RetryError" :=
    retryCall_error hfail
  have ho : oracle i = Except.error "RetryError" := by rw [horacle, hret]
  have hstep := runStep_error BS words oracle initBatches st hnotdone ho
  refine ⟨hret, ?_, ?_, ?_, ?_, ?_, ?_, ?_⟩
  · rw [hstep]
  · simp [failEntries]
  · intro e he
    rw [failEntries, List.mem_map] at he
    rcases he with ⟨w, hw, rfl⟩
    exact ⟨rfl, hw⟩
  · rw [hstep]
  · intro h
    rw [hstep, h]
  · rw [hstep]
  · exact fun oracle2 initB2 st2 h => runStep_skip st2 h

theorem batch_failure_contract_witness :
    retryCall (fun _ => Except.error "接口超时") 3 = Except.error "RetryError" ∧
    (runStep 2 ["甲", "乙", "丙", "丁"] (fun _ => Except.error "RetryError") []
        ⟨⟨2, 2, [1]⟩, [], []⟩ 2).writes =
      [Artifact.errorFile 2 (failEntries ["丙", "丁"] "RetryError"),
       Artifact.progressFile 2
         (runStep 2 ["甲", "乙", "丙", "丁"] (fun _ => Except.error "RetryError") []
           ⟨⟨2, 2, [1]⟩, [], []⟩ 2).progress] ∧
    (runStep 2 ["甲", "乙", "丙", "丁"] (fun _ => Except.error "RetryError") []
        ⟨⟨2, 2, [1]⟩, [], []⟩ 2).progress.last_index = 2 + 2 ∧
    (runStep 2 ["甲", "乙", "丙", "丁"] (fun _ => Except.error "RetryError") []
        ⟨⟨2, 2, [1]⟩, [], []⟩ 2).progress.batches = [1, 2] ∧
    runStep 2 ["甲", "乙", "丙", "丁"] (fun _ => Except.ok "乱码") [2]
        ⟨⟨0, 0, [2]⟩, [], []⟩ 2 = ⟨⟨0, 0, [2]⟩, [], []⟩ := by
  have h := batch_failure_contract 2 3 ["甲", "乙", "丙", "丁"]
    (fun _ => Except.error "接口超时") (fun _ => Except.error "RetryError") []
    ⟨⟨2, 2, [1]⟩, [], []⟩ 2 (fun k _ => ⟨"接口超时", rfl⟩) (by decide) rfl
  exact ⟨h.1, h.2.1, h.2.2.2.2.1, h.2.2.2.2.2.2.1,
    h.2.2.2.2.2.2.2 (fun _ => Except.ok "乱码") [2] ⟨⟨0, 0, [2]⟩, [], []⟩ (by decide)⟩

/-- C7.  The top-level loop iterates exactly the batch start offsets from
`Progress.lastIndex` (not 0) to the end of the word list in steps of `BS`;
any offset whose batch number is already in the loaded `completedBatches` is
skipped — no model call, no writes, no progress mutation — and consequently a
re-run against an unchanged progress store produces no write and no call for
any already-completed batch number. -/
theorem resume_skip_idempotent (BS : Nat) (hBS : 0 < BS) (words : List String)
    (oracle : Nat → Except String String) (init : Progress) :
    (∀ i, i ∈ runOffsets BS words.length init.last_index ↔
      init.last_index ≤ i ∧ i < words.length ∧ BS ∣ (i - init.last_index)) ∧
    (init.last_index < words.length →
      (runOffsets BS words.length init.last_index).head? = some init.last_index) ∧
    (runMain BS words oracle init =
      (runOffsets BS words.length init.last_index).foldl
        (runStep BS words oracle init.batches) ⟨init, [], []⟩) ∧
    (∀ (st : RunState) (i : Nat), i / BS + 1 ∈ init.batches →
      runStep BS words oracle init.batches st i = st) ∧
    (∀ a ∈ (runMain BS words oracle init).writes, a.batchNum ∉ init.batches) ∧
    (∀ b ∈ (runMain BS words oracle init).calls, b ∉ init.batches) := by
  refine ⟨fun i => mem_runOffsets hBS i, fun h => head?_runOffsets hBS h, rfl,
    fun st i h => runStep_skip st h, ?_, ?_⟩
  · intro a ha
    rcases foldl_writes_not_init _ _ a ha with h | h
    · exact absurd h (List.not_mem_nil a)
    · exact h
  · intro b hb
    rcases foldl_calls_not_init _ _ b hb with h | h
    · exact absurd h (List.not_mem_nil b)
    · exact h

theorem resume_skip_idempotent_witness :
    (2 ∈ runOffsets 2 4 2) ∧
    (runOffsets 2 4 2).head? = some 2 ∧
    runStep 2 ["甲", "乙", "丙", "丁"] (fun _ => Except.ok "乱码") [1]
      ⟨⟨2, 2, [1]⟩, [], []⟩ 0 = ⟨⟨2, 2, [1]⟩, [], []⟩ ∧
    (Artifact.progressFile 2 ⟨4, 4, [1, 2]⟩).batchNum ∉ ([1] : List Nat) := by
  have h := resume_skip_idempotent 2 (by decide) ["甲", "乙", "丙", "丁"]
    (fun _ => Except.ok "乱码") ⟨2, 2, [1]⟩
  exact ⟨(h.1 2).mpr (by decide), h.2.1 (by decide),
    h.2.2.2.1 ⟨⟨2, 2, [1]⟩, [], []⟩ 0 (by decide),
    h.2.2.2.2.1 (Artifact.progressFile 2 ⟨4, 4, [1, 2]⟩) (by decide)⟩

/-- C8 (amended).  Every batch attempt at start offset `i` sets
`Progress.lastIndex` to `i + BS` — an advance of exactly `BS` whenever the
cursor stood at `i`, as in a cleanly resumed run, though a larger jump if
preceding offsets were skipped — appends its batch number to
`completedBatches` (which otherwise only grows), and persists the mutated
progress immediately after the attempt; consequently, starting from a
`lastIndex` that is a multiple of `BS`, `lastIndex` remains a multiple of
`BS` throughout a run, and the run only appends to `completedBatches`.
(The claim that every attempt advances `lastIndex` by exactly `BS` fails
when a skipped batch precedes the attempt.) -/
theorem progress_advance_invariant (BS : Nat) (words : List String)
    (oracle : Nat → Except String String) (init : Progress)
    (hBS : 0 < BS) (hdvd : BS ∣ init.last_index) :
    (∀ (initB : List Nat) (st : RunState) (i : Nat), i / BS + 1 ∉ initB →
      (runStep BS words oracle initB st i).progress.last_index = i + BS ∧
      (st.progress.last_index = i →
        (runStep BS words oracle initB st i).progress.last_index =
          st.progress.last_index + BS) ∧
      (runStep BS words oracle initB st i).progress.batches =
        st.progress.batches ++ [i / BS + 1] ∧
      ∃ pre, (runStep BS words oracle initB st i).writes =
        st.writes ++ pre ++
          [Artifact.progressFile (i / BS + 1) (runStep BS words oracle initB st i).progress]) ∧
    BS ∣ (runMain BS words oracle init).progress.last_index ∧
    (∃ t, (runMain BS words oracle init).progress.batches = init.batches ++ t) := by
  refine ⟨?_, ?_, foldl_batches_grow _ _⟩
  · intro initB st i hni
    rcases ho : oracle i with m | r
    · rw [runStep_error BS words oracle initB st hni ho]
      refine ⟨rfl, fun h => by rw [h], rfl,
        ⟨[Artifact.errorFile (i / BS + 1) (failEntries ((words.drop i).take BS) m)], ?_⟩⟩
      simp
    · rw [runStep_ok BS words oracle initB st hni ho]
      refine ⟨rfl, fun h => by rw [h], rfl,
        ⟨[Artifact.result (i / BS + 1) (parse_response r ((words.drop i).take BS))] ++
          (if ((parse_response r ((words.drop i).take BS)).filter
                (fun e => e.error.isSome)).length > 0
            then [Artifact.errorFile (i / BS + 1)
                    ((parse_response r ((words.drop i).take BS)).filter
                      (fun e => e.error.isSome))]
            else []), ?_⟩⟩
      simp
  · refine foldl_last_index_dvd _ _ (fun i hi => ?_) hdvd
    rcases (mem_runOffsets hBS i).mp hi with ⟨h1, _, hd⟩
    rcases hd with ⟨a, ha⟩
    rcases hdvd with ⟨b, hb⟩
    refine ⟨b + a, ?_⟩
    have hx : BS * (b + a) = BS * b + BS * a := by ring
    generalize BS * a = X at ha hx
    generalize BS * b = Y at hb hx
    generalize BS * (b + a) = Z at hx ⊢
    omega

theorem progress_advance_invariant_witness :
    (runStep 2 ["甲", "乙", "丙", "丁"] (fun _ => Except.ok "乱码") []
      ⟨⟨0, 0, []⟩, [], []⟩ 0).progress.last_index = 0 + 2 ∧
    2 ∣ (runMain 2 ["甲", "乙", "丙", "丁"] (fun _ => Except.ok "乱码")
      ⟨0, 0, []⟩).progress.last_index ∧
    (∃ t, (runMain 2 ["甲", "乙", "丙", "丁"] (fun _ => Except.ok "乱码")
      ⟨0, 0, []⟩).progress.batches = [] ++ t) := by
  have h := progress_advance_invariant 2 ["甲", "乙", "丙", "丁"]
    (fun _ => Except.ok "乱码") ⟨0, 0, []⟩ (by decide) (by decide)
  exact ⟨(h.1 [] ⟨⟨0, 0, []⟩, [], []⟩ 0 (by decide)).1, h.2.1, h.2.2⟩

/-- C8, counterexample to the claim as stated: from the progress state
`{lastIndex := 0, batches := [1]}` (whose `lastIndex` is a multiple of the
batch size 2), the loop skips offset 0 (batch 1 already completed) and the
genuine attempt at offset 2 moves `lastIndex` from 0 to 4 — an advance of 4,
not of `BatchSize = 2`. -/
theorem progress_advance_invariant_cex :
    (2 : Nat) ∣ (⟨0, 0, [1]⟩ : Progress).last_index ∧
    runStep 2 ["甲", "乙", "丙", "丁"] (fun _ => Except.ok "乱码") [1]
      ⟨⟨0, 0, [1]⟩, [], []⟩ 0 = ⟨⟨0, 0, [1]⟩, [], []⟩ ∧
    (2 / 2 + 1 ∉ ([1] : List Nat)) ∧
    (runStep 2 ["甲", "乙", "丙", "丁"] (fun _ => Except.ok "乱码") [1]
      ⟨⟨0, 0, [1]⟩, [], []⟩ 2).progress.last_index = 4 ∧
    (4 : Nat) - 0 ≠ 2 := by
  decide

/-- C9.  The Aggregator's `total_words` equals the sum of the per-batch
record counts over all result artifacts, `success_words + error_words`
equals `total_words`, and a record is counted as an error exactly when it
carries a present (non-empty) `error` value. -/
theorem aggregate_results_counts (files : List (List Entry)) :
    (aggregate_results files).total_words = (files.map List.length).sum ∧
    (aggregate_results files).success_words + (aggregate_results files).error_words =
      (aggregate_results files).total_words ∧
    (aggregate_results files).error_words =
      (files.flatten.filter (fun e => e.error.isSome)).length := by
  have hsplit := List.length_eq_length_filter_add (l := files.flatten)
    (fun e => e.error.isNone)
  beta_reduce at hsplit
  have hfle : files.flatten.filter (fun e => !(e.error.isNone)) =
      files.flatten.filter (fun e => e.error.isSome) := by
    apply List.filter_congr
    intro e _
    cases e.error <;> rfl
  have hle := List.length_filter_le (fun e => e.error.isNone) files.flatten
  refine ⟨?_, ?_, ?_⟩
  · simp [aggregate_results]
  · show (files.flatten.filter (fun e => e.error.isNone)).length +
      (files.flatten.length - (files.flatten.filter (fun e => e.error.isNone)).length) =
      files.flatten.length
    omega
  · show files.flatten.length - (files.flatten.filter (fun e => e.error.isNone)).length =
      (files.flatten.filter (fun e => e.error.isSome)).length
    rw [← hfle]
    omega

theorem aggregate_results_counts_witness :
    (aggregate_results [[{ word := "甲" }], [{ word := "乙", error := some "解析错误" }]]).total_words = 2 ∧
    (aggregate_results [[{ word := "甲" }], [{ word := "乙", error := some "解析错误" }]]).success_words +
      (aggregate_results [[{ word := "甲" }], [{ word := "乙", error := some "解析错误" }]]).error_words = 2 ∧
    (aggregate_results [[{ word := "甲" }], [{ word := "乙", error := some "解析错误" }]]).error_words = 1 := by
  have h := aggregate_results_counts [[{ word := "甲" }], [{ word := "乙", error := some "解析错误" }]]
  exact ⟨h.1, h.2.1, h.2.2⟩

end ProcessWords
